import Mathlib

/-
Verification of the satellite coverage optimizer (src/main.cpp).

The C++ program stores satellites (name, half-open time interval, cost,
region) in a registry and offers three query operations over a fixed
target window [targetStart, targetEnd):
  - findMinimumSatellites : greedy interval covering, returns (selected, gaps)
  - findMinimumCostCoverage : DP over sorted intervals, returns
    (selected, totalCost, gaps)
  - getCoverageSummary : aggregates the greedy result into a summary.

Times and costs are C++ doubles; they are modelled as rationals, which is
exact for every operation the program performs (comparison, min, max,
addition, subtraction, division).  The C++ field name `end` is a reserved
word in Lean and is rendered `stop` throughout.
-/

namespace SatCov

/-- Mirrors class CoverageInterval: a half-open time range. -/
structure CoverageInterval where
  start : ℚ
  stop : ℚ
  deriving DecidableEq

/-- CoverageInterval::getDuration: end - start. -/
def CoverageInterval.duration (i : CoverageInterval) : ℚ := i.stop - i.start

/-- CoverageInterval::overlaps: !(end <= other.start || start >= other.end). -/
def CoverageInterval.overlaps (a b : CoverageInterval) : Prop :=
  ¬(a.stop ≤ b.start ∨ a.start ≥ b.stop)

instance (a b : CoverageInterval) : Decidable (a.overlaps b) := by
  unfold CoverageInterval.overlaps; infer_instance

/-- Mirrors class Satellite: name, interval, cost, region. -/
structure Satellite where
  name : String
  interval : CoverageInterval
  cost : ℚ
  region : String
  deriving DecidableEq

/-- The Satellite constructor defaults: cost = 1.0, region = "Global".
Used as the out-of-range fallback for list indexing; the algorithms never
index out of range in reachable states. -/
instance : Inhabited Satellite := ⟨⟨"", ⟨0, 0⟩, 1, "Global"⟩⟩

/-- Mirrors class SatelliteCoverageOptimizer state: the registry and the
fixed target window. -/
structure SatelliteCoverageOptimizer where
  satellites : List Satellite
  targetStart : ℚ
  targetEnd : ℚ
  deriving DecidableEq

/-- The default constructor SatelliteCoverageOptimizer(start = 0, end = 24)
applied with no arguments, starting from the empty registry. -/
def defaultOptimizer : SatelliteCoverageOptimizer := ⟨[], 0, 24⟩

/-- addSatellite(name, start, end, cost, region): emplace_back appends one
satellite to the registry. -/
def addSatellite (opt : SatelliteCoverageOptimizer) (name : String)
    (start stop cost : ℚ) (region : String) : SatelliteCoverageOptimizer :=
  { opt with satellites := opt.satellites ++ [⟨name, ⟨start, stop⟩, cost, region⟩] }

/-- addSatellite called with the defaulted arguments cost = 1.0,
region = "Global". -/
def addSatelliteDefault (opt : SatelliteCoverageOptimizer) (name : String)
    (start stop : ℚ) : SatelliteCoverageOptimizer :=
  addSatellite opt name start stop 1 "Global"

/-- filterByRegion: "All" returns the whole registry, otherwise the
exact-match subset, in registry order. -/
def filterByRegion (opt : SatelliteCoverageOptimizer) (region : String) :
    List Satellite :=
  if region = "All" then opt.satellites
  else opt.satellites.filter (fun s => decide (s.region = region))

/-- The comparator of Satellite::operator<, as a non-strict total relation:
std::sort produces some order that is non-decreasing in interval start
(ties are ordered arbitrarily by std::sort; a stable sort is one legitimate
outcome and is the one modelled here). -/
def satLE (a b : Satellite) : Prop :=
  a.interval.start ≤ b.interval.start

instance : DecidableRel satLE := fun a b => by unfold satLE; infer_instance

instance : IsTotal Satellite satLE :=
  ⟨fun a b => le_total a.interval.start b.interval.start⟩

instance : IsTrans Satellite satLE :=
  ⟨fun _ _ _ hab hbc => le_trans hab hbc⟩

/-- std::sort(filtered.begin(), filtered.end()) with Satellite::operator<. -/
def sortSatellites (l : List Satellite) : List Satellite :=
  l.insertionSort satLE

/-- The sorted, region-filtered provider list both algorithms start from. -/
def sortedFiltered (opt : SatelliteCoverageOptimizer) (region : String) :
    List Satellite :=
  sortSatellites (filterByRegion opt region)

/-- std::max_element over a non-empty candidate batch with the comparator
a.end < b.end: scan left to right, replace the current best exactly when
its end is strictly smaller, so the first maximal-end candidate wins ties. -/
def maxEndCandidate : Satellite → List Satellite → Satellite
  | best, [] => best
  | best, c :: cs =>
      maxEndCandidate (if best.interval.stop < c.interval.stop then c else best) cs

lemma length_dropWhile_le (p : Satellite → Bool) (l : List Satellite) :
    (l.dropWhile p).length ≤ l.length := by
  induction l with
  | nil => simp
  | cons a l ih =>
      rw [List.dropWhile_cons]
      split
      · exact Nat.le_succ_of_le ih
      · exact Nat.le_refl _

/-- The while loop of findMinimumSatellites, lines 107-146.  State: the
current frontier currentEnd and the not-yet-considered suffix of the sorted
list (the cursor i).  One call = one loop iteration:
  - loop guard currentEnd < targetEnd and non-empty remainder;
  - candidates = maximal prefix with start <= currentEnd (the inner
    collection loop advancing i);
  - if the batch is non-empty, select its max-end element and move the
    frontier to its end;
  - if empty, record the gap [currentEnd, min(next.start, targetEnd)) when
    non-degenerate, force-select the next satellite and move the frontier
    to its end.  (The "no satellites remain" arm of the gap branch in the
    source, line 131-132, is unreachable: an empty batch leaves the cursor
    where the loop guard checked it.)
Returns (selected, gaps, final currentEnd); the caller appends the
trailing gap.  Every iteration consumes at least one list element, so the
loop runs at most length-many times; the structural fuel argument, always
instantiated to length + 1, only bounds the iteration count and its
exhaustion arm is unreachable. -/
def greedyGo (targetEnd : ℚ) :
    ℕ → ℚ → List Satellite → List Satellite × List CoverageInterval × ℚ
  | 0, currentEnd, _ => ([], [], currentEnd)
  | fuel + 1, currentEnd, l =>
    if currentEnd < targetEnd then
      match l with
      | [] => ([], [], currentEnd)
      | next :: rest =>
        if next.interval.start ≤ currentEnd then
          let best := maxEndCandidate next
            (rest.takeWhile (fun s => decide (s.interval.start ≤ currentEnd)))
          let r := greedyGo targetEnd fuel best.interval.stop
            (rest.dropWhile (fun s => decide (s.interval.start ≤ currentEnd)))
          (best :: r.1, r.2.1, r.2.2)
        else
          let gapEnd := min next.interval.start targetEnd
          let gaps0 := if currentEnd < gapEnd then [CoverageInterval.mk currentEnd gapEnd] else []
          let r := greedyGo targetEnd fuel next.interval.stop rest
          (next :: r.1, gaps0 ++ r.2.1, r.2.2)
    else ([], [], currentEnd)

/-- findMinimumSatellites: filter, sort, run the greedy loop, then append
the trailing gap [currentEnd, targetEnd) if the frontier fell short. -/
def findMinimumSatellites (opt : SatelliteCoverageOptimizer) (region : String) :
    List Satellite × List CoverageInterval :=
  let r := greedyGo opt.targetEnd ((sortedFiltered opt region).length + 1)
    opt.targetStart (sortedFiltered opt region)
  (r.1, if r.2.2 < opt.targetEnd then r.2.1 ++ [⟨r.2.2, opt.targetEnd⟩] else r.2.1)

/-- The DP arrays of findMinimumCostCoverage: dp (none encodes the infinity
sentinel) and parent (none encodes -1), both of logical size n + 1. -/
structure DPState where
  dp : ℕ → Option ℚ
  parent : ℕ → Option ℕ

/-- Pointwise array update. -/
def upd {α : Type} (f : ℕ → α) (k : ℕ) (v : α) : ℕ → α :=
  fun j => if j = k then v else f j

/-- dp[0] = 0, every other dp entry infinity, every parent entry -1. -/
def initState : DPState :=
  ⟨fun k => if k = 0 then some 0 else none, fun _ => none⟩

/-- The relaxation body of the inner j loop (lines 175-179): newCost =
dp[i] + cost[j]; on strict improvement over dp[j+1] (any finite value beats
the infinity sentinel) write dp[j+1] and parent[j+1] = j. -/
def dpStepJ (filtered : List Satellite) (dpi : ℚ) (st : DPState) (j : ℕ) : DPState :=
  let s := filtered.getD j default
  let newCost := dpi + s.cost
  let improved :=
    match st.dp (j + 1) with
    | none => true
    | some c => decide (newCost < c)
  if improved then
    ⟨upd st.dp (j + 1) (some newCost), upd st.parent (j + 1) (some j)⟩
  else st

/-- One iteration of the outer i loop (lines 166-181): skip when dp[i] is
infinity; otherwise currentEnd is targetStart for i = 0 and the interval
end of filtered[parent[i]] for i > 0, and the inner loop runs j = i, i+1,
... until j = n or filtered[j].start > currentEnd (the break), which is the
longest qualifying prefix of [i, ..., n-1].  (When dp[i] is finite and
i > 0, parent[i] was written together with dp[i], so the none arm of the
parent match is unreachable; the C++ there would index with -1.) -/
def dpStepI (filtered : List Satellite) (targetStart : ℚ) (st : DPState) (i : ℕ) : DPState :=
  match st.dp i with
  | none => st
  | some dpi =>
    let currentEnd : ℚ :=
      if i = 0 then targetStart
      else
        match st.parent i with
        | some p => (filtered.getD p default).interval.stop
        | none => targetStart
    ((List.range' i (filtered.length - i)).takeWhile
        (fun j => decide ((filtered.getD j default).interval.start ≤ currentEnd))).foldl
      (dpStepJ filtered dpi) st

/-- The full DP table construction of findMinimumCostCoverage. -/
def dpRun (filtered : List Satellite) (targetStart : ℚ) : DPState :=
  (List.range filtered.length).foldl (dpStepI filtered targetStart) initState

/-- The reconstruction walk (lines 186-192): from index idx, while idx > 0
and parent[idx] is defined, collect filtered[parent[idx]] and its cost and
step to parent[idx].  The fuel argument only bounds the iteration count;
parent entries always point strictly downward (parent[j+1] = j), so fuel
n + 1 is never exhausted when starting from idx = n. -/
def walk (filtered : List Satellite) (parent : ℕ → Option ℕ) :
    ℕ → ℕ → List Satellite × ℚ
  | 0, _ => ([], 0)
  | fuel + 1, idx =>
    if idx = 0 then ([], 0)
    else
      match parent idx with
      | none => ([], 0)
      | some p =>
        let s := filtered.getD p default
        let r := walk filtered parent fuel p
        (s :: r.1, r.2 + s.cost)

/-- The gap scan shared shape of lines 197-205: walk the selection in
order, emit [currentEnd, start) whenever a satellite starts strictly after
the frontier, then advance the frontier to max(currentEnd, end).  Returns
the gaps and the final frontier; the caller appends the trailing gap. -/
def gapFinderGo (currentEnd : ℚ) : List Satellite → List CoverageInterval × ℚ
  | [] => ([], currentEnd)
  | s :: rest =>
    let gaps0 :=
      if s.interval.start > currentEnd then [CoverageInterval.mk currentEnd s.interval.start]
      else []
    let r := gapFinderGo (max currentEnd s.interval.stop) rest
    (gaps0 ++ r.1, r.2)

/-- Lines 197-209: gaps of a selection, including the trailing gap
[currentEnd, targetEnd) when the final frontier falls short. -/
def gapFinder (targetStart targetEnd : ℚ) (sel : List Satellite) :
    List CoverageInterval :=
  let r := gapFinderGo targetStart sel
  if r.2 < targetEnd then r.1 ++ [⟨r.2, targetEnd⟩] else r.1

/-- findMinimumCostCoverage: filter, sort, build the DP table, reconstruct
by walking parent from the fixed index n (push_back then std::reverse, the
total cost accumulated along the same walk), then derive gaps from the
reconstructed selection. -/
def findMinimumCostCoverage (opt : SatelliteCoverageOptimizer) (region : String) :
    List Satellite × ℚ × List CoverageInterval :=
  let filtered := sortedFiltered opt region
  let n := filtered.length
  let st := dpRun filtered opt.targetStart
  let w := walk filtered st.parent (n + 1) n
  let selected := w.1.reverse
  (selected, w.2, gapFinder opt.targetStart opt.targetEnd selected)

/-- Mirrors struct CoverageSummary. -/
structure CoverageSummary where
  totalDuration : ℚ
  coveredDuration : ℚ
  coveragePercentage : ℚ
  gaps : List CoverageInterval
  satellitesUsed : ℕ
  totalCost : ℚ
  deriving DecidableEq

/-- getCoverageSummary (lines 215-236): runs the greedy algorithm, then in
one pass over the selection accumulates totalCost and coveredTime, the
latter adding min(targetEnd, end) - max(targetStart, start) per satellite
with no clamping at zero and no deduplication of overlaps. -/
def getCoverageSummary (opt : SatelliteCoverageOptimizer) (region : String) :
    CoverageSummary :=
  let r := findMinimumSatellites opt region
  let totalDuration := opt.targetEnd - opt.targetStart
  let acc := r.1.foldl
    (fun (a : ℚ × ℚ) s =>
      (a.1 + s.cost,
       a.2 + (min opt.targetEnd s.interval.stop - max opt.targetStart s.interval.start)))
    (0, 0)
  { totalDuration := totalDuration
    coveredDuration := acc.2
    coveragePercentage := acc.2 / totalDuration * 100
    gaps := r.2
    satellitesUsed := r.1.length
    totalCost := acc.1 }

/-- State-passing view of findMinimumSatellites.  The method body reads the
registry through the by-value copy made by filterByRegion and never assigns
to the fields of the object, so its effect on the optimizer state is the
identity. -/
def findMinimumSatellitesM (opt : SatelliteCoverageOptimizer) (region : String) :
    (List Satellite × List CoverageInterval) × SatelliteCoverageOptimizer :=
  (findMinimumSatellites opt region, opt)

/-- State-passing view of findMinimumCostCoverage; as above the method
never assigns to the fields of the object. -/
def findMinimumCostCoverageM (opt : SatelliteCoverageOptimizer) (region : String) :
    (List Satellite × ℚ × List CoverageInterval) × SatelliteCoverageOptimizer :=
  (findMinimumCostCoverage opt region, opt)

/-- State-passing view of getCoverageSummary; it only calls
findMinimumSatellites and reads the window fields. -/
def getCoverageSummaryM (opt : SatelliteCoverageOptimizer) (region : String) :
    CoverageSummary × SatelliteCoverageOptimizer :=
  (getCoverageSummary opt region, opt)

/-- A point x of the target window is accounted for by a result: it lies in
some selected satellite interval clipped to the window, or in some reported
gap. -/
def coveredBy (targetStart targetEnd x : ℚ)
    (sel : List Satellite) (gaps : List CoverageInterval) : Prop :=
  (∃ s ∈ sel, max targetStart s.interval.start ≤ x ∧ x < min targetEnd s.interval.stop)
  ∨ (∃ g ∈ gaps, g.start ≤ x ∧ x < g.stop)

instance (targetStart targetEnd x : ℚ) (sel : List Satellite)
    (gaps : List CoverageInterval) :
    Decidable (coveredBy targetStart targetEnd x sel gaps) := by
  unfold coveredBy; infer_instance

/-- The three Asia satellites registered by main (lines 327, 329, 333). -/
def alphaSat : Satellite := ⟨"Sat-Alpha", ⟨0, 6⟩, 1200, "Asia"⟩

def etaSat : Satellite := ⟨"Sat-Eta", ⟨2, 8⟩, 900, "Asia"⟩

def gammaSat : Satellite := ⟨"Sat-Gamma", ⟨8, 14⟩, 1800, "Asia"⟩

/-- A registry whose Asia satellites are exactly the three of the reference
scenario, with the default window [0, 24). -/
def asiaOpt : SatelliteCoverageOptimizer := ⟨[alphaSat, etaSat, gammaSat], 0, 24⟩

/-- A registry over window [12, 40) on which the greedy frontier moves
backwards twice: the batch at frontier 12 contains only A = [0, 8), and the
batch at frontier 30 contains only C = [25, 26). -/
def backtrackOpt : SatelliteCoverageOptimizer :=
  ⟨[⟨"A", ⟨0, 8⟩, 1, "Global"⟩,
    ⟨"B", ⟨13, 30⟩, 1, "Global"⟩,
    ⟨"C", ⟨25, 26⟩, 1, "Global"⟩,
    ⟨"D", ⟨32, 33⟩, 1, "Global"⟩], 12, 40⟩

/-- A registry whose single satellite lies entirely before the target
window [10, 20): the greedy still selects it. -/
def disjointOpt : SatelliteCoverageOptimizer := ⟨[⟨"X", ⟨0, 2⟩, 1, "Global"⟩], 10, 20⟩

/-- A satellite starting after the end of the window [0, 10). -/
def lateSat : Satellite := ⟨"P2", ⟨15, 20⟩, 1, "Global"⟩

/-- Window [0, 10) with a covered prefix and then only `lateSat`, whose
start 15 exceeds the window end 10. -/
def clipOpt : SatelliteCoverageOptimizer :=
  ⟨[⟨"P1", ⟨0, 2⟩, 1, "Global"⟩, lateSat], 0, 10⟩

/-- Window [0, 10) with one satellite starting at 5 > 0: the DP chain never
leaves index 0, so no chain reaches index n. -/
def noChainOpt : SatelliteCoverageOptimizer := ⟨[⟨"X", ⟨5, 8⟩, 3, "Global"⟩], 0, 10⟩

/-- Window [0, 10) fully covered by a two-satellite chain. -/
def chainOpt : SatelliteCoverageOptimizer :=
  ⟨[⟨"P", ⟨0, 6⟩, 2, "Global"⟩, ⟨"Q", ⟨4, 12⟩, 5, "Global"⟩], 0, 10⟩

/-- Satellite j of the filtered list can be reached by some DP relaxation:
its start is at or before targetStart, or at or before the interval end of
some strictly earlier satellite.  This is exactly the condition under which
parent[j + 1] can ever be written (the inner loop at i = 0 compares against
targetStart, the inner loop at i > 0 against the end of satellite
parent[i] = i - 1 < j). -/
def startReachable (filtered : List Satellite) (targetStart : ℚ) (j : ℕ) : Prop :=
  (filtered.getD j default).interval.start ≤ targetStart
  ∨ ∃ p, p < j ∧ (filtered.getD j default).interval.start
      ≤ (filtered.getD p default).interval.stop

/-- Invariant of the DP arrays throughout findMinimumCostCoverage: every
defined parent entry is parent[k] = k - 1 for a reachable satellite, dp
entries beyond index 0 are finite only together with their parent entry
(both are written by the same relaxation), and defined parent entries are
downward closed (the inner loop writes a contiguous block parent[i+1..j+1]
whose base i has dp[i] finite). -/
def dpInv (filtered : List Satellite) (targetStart : ℚ) (st : DPState) : Prop :=
  (∀ k j, st.parent k = some j → k = j + 1 ∧ startReachable filtered targetStart j)
  ∧ (∀ k, st.dp k ≠ none → k = 0 ∨ st.parent k ≠ none)
  ∧ (∀ k, st.parent (k + 1) ≠ none → k = 0 ∨ st.parent k ≠ none)

/-- The selection reaching the gap scan leaves no interior gap: each
satellite starts at or before the running frontier max(targetStart, ends
seen so far). -/
def noGapChain : ℚ → List Satellite → Prop
  | _, [] => True
  | currentEnd, s :: rest =>
      s.interval.start ≤ currentEnd ∧ noGapChain (max currentEnd s.interval.stop) rest

/-! Helper lemmas shared by several claim theorems. -/

lemma summaryAcc_spec (targetStart targetEnd : ℚ) (l : List Satellite) :
    ∀ a b : ℚ,
      l.foldl
        (fun (acc : ℚ × ℚ) s =>
          (acc.1 + s.cost,
           acc.2 + (min targetEnd s.interval.stop - max targetStart s.interval.start)))
        (a, b)
      = (a + (l.map Satellite.cost).sum,
         b + (l.map (fun s =>
              min targetEnd s.interval.stop - max targetStart s.interval.start)).sum) := by
  induction l with
  | nil => intro a b; simp
  | cons s l ih =>
      intro a b
      rw [List.foldl_cons, ih]
      simp [add_assoc]

lemma maxEndCandidate_mem (cs : List Satellite) : ∀ b : Satellite,
    maxEndCandidate b cs ∈ b :: cs := by
  induction cs with
  | nil => intro b; simp [maxEndCandidate]
  | cons c cs ih =>
      intro b
      rw [maxEndCandidate]
      rcases List.mem_cons.mp (ih (if b.interval.stop < c.interval.stop then c else b)) with h | h
      · rw [h]
        split
        · simp
        · simp
      · simp [List.mem_cons.mpr (Or.inr h)]

lemma maxEndCandidate_start_le (currentEnd : ℚ) (next : Satellite)
    (rest : List Satellite) (hnext : next.interval.start ≤ currentEnd) :
    (maxEndCandidate next
        (rest.takeWhile (fun s => decide (s.interval.start ≤ currentEnd)))).interval.start
      ≤ currentEnd := by
  rcases List.mem_cons.mp (maxEndCandidate_mem _ next) with h | h
  · rw [h]; exact hnext
  · have := List.mem_takeWhile_imp h
    exact of_decide_eq_true this

lemma foldl_preserve {α β : Type} {P : α → Prop} {f : α → β → α}
    (h : ∀ a b, P a → P (f a b)) :
    ∀ (l : List β) (a : α), P a → P (l.foldl f a) := by
  intro l
  induction l with
  | nil => intro a ha; exact ha
  | cons b l ih => intro a ha; exact ih _ (h a b ha)

/-- Claim C10: addSatellite called without an explicit cost stores the
satellite with cost exactly 1, and without an explicit region stores region
exactly "Global"; an optimizer constructed without arguments has target
window start 0 and end 24; addSatellite always appends exactly one
satellite, leaves the window unchanged and never rejects its arguments. -/
theorem addSatellite_defaults (opt : SatelliteCoverageOptimizer) (name : String)
    (s e c : ℚ) (r : String) :
    addSatelliteDefault opt name s e = addSatellite opt name s e 1 "Global"
    ∧ (addSatellite opt name s e c r).satellites
        = opt.satellites ++ [⟨name, ⟨s, e⟩, c, r⟩]
    ∧ (addSatellite opt name s e c r).satellites.length
        = opt.satellites.length + 1
    ∧ (addSatellite opt name s e c r).targetStart = opt.targetStart
    ∧ (addSatellite opt name s e c r).targetEnd = opt.targetEnd
    ∧ defaultOptimizer.satellites = []
    ∧ defaultOptimizer.targetStart = 0
    ∧ defaultOptimizer.targetEnd = 24 := by
  refine ⟨rfl, rfl, ?_, rfl, rfl, rfl, rfl, rfl⟩
  simp [addSatellite]

/-- Claim C8: the three query operations are side-effect-free on the
optimizer state (each method only reads the registry through a by-value
copy), so a second call on the resulting state returns the same value as
the first. -/
theorem queries_pure_idempotent (opt : SatelliteCoverageOptimizer) (region : String) :
    (findMinimumSatellitesM opt region).2 = opt
    ∧ (findMinimumSatellitesM ((findMinimumSatellitesM opt region).2) region).1
        = (findMinimumSatellitesM opt region).1
    ∧ (findMinimumCostCoverageM opt region).2 = opt
    ∧ (findMinimumCostCoverageM ((findMinimumCostCoverageM opt region).2) region).1
        = (findMinimumCostCoverageM opt region).1
    ∧ (getCoverageSummaryM opt region).2 = opt
    ∧ (getCoverageSummaryM ((getCoverageSummaryM opt region).2) region).1
        = (getCoverageSummaryM opt region).1 :=
  ⟨rfl, rfl, rfl, rfl, rfl, rfl⟩

/-- Claim C2 (amended): coveredDuration equals the sum, over the greedily
selected satellites, of min(targetEnd, end) - max(targetStart, start), with
no clamping at zero: a selected satellite whose interval is disjoint from
the window contributes a negative amount. -/
theorem coveredDuration_formula (opt : SatelliteCoverageOptimizer) (region : String) :
    (getCoverageSummary opt region).coveredDuration
      = ((findMinimumSatellites opt region).1.map
          (fun s => min opt.targetEnd s.interval.stop
            - max opt.targetStart s.interval.start)).sum := by
  simp only [getCoverageSummary]
  rw [summaryAcc_spec]
  simp

/-- Claim C2, counterexample to the claimed clamping: on `disjointOpt` the
selected satellite [0, 2) lies before the window [10, 20), the code adds
min(20, 2) - max(10, 0) = -8, while the claimed formula with max(0, _)
sums to 0. -/
theorem coveredDuration_clamp_counterexample :
    (getCoverageSummary disjointOpt "All").coveredDuration = -8
    ∧ ((findMinimumSatellites disjointOpt "All").1.map
        (fun s => max 0 (min disjointOpt.targetEnd s.interval.stop
          - max disjointOpt.targetStart s.interval.start))).sum = 0
    ∧ (-8 : ℚ) ≠ 0 := by
  have hsel : findMinimumSatellites disjointOpt "All"
      = ([⟨"X", ⟨0, 2⟩, 1, "Global"⟩], [⟨2, 20⟩]) := by decide
  refine ⟨?_, ?_, by norm_num⟩
  · simp only [getCoverageSummary, hsel]
    norm_num [min_def, max_def, disjointOpt]
  · rw [hsel]
    norm_num [min_def, max_def, disjointOpt]

/-- Claim C3 (amended): for the Asia reference scenario over [0, 24) the
summary reports exactly one gap [14, 24) of duration 10, and — because the
per-satellite overlaps 6 + 6 + 6 are summed without deduplicating the
shared time of [0,6)/[2,8) and [2,8)/[8,14) — coveredDuration = 18 and
coveragePercentage = 75. -/
theorem asia_scenario_amended :
    (getCoverageSummary asiaOpt "Asia").gaps = [⟨14, 24⟩]
    ∧ (⟨14, 24⟩ : CoverageInterval).duration = 10
    ∧ (getCoverageSummary asiaOpt "Asia").coveredDuration = 18
    ∧ (getCoverageSummary asiaOpt "Asia").coveragePercentage = 75
    ∧ (getCoverageSummary asiaOpt "Asia").satellitesUsed = 3 := by
  have hsel : findMinimumSatellites asiaOpt "Asia"
      = ([alphaSat, etaSat, gammaSat], [⟨14, 24⟩]) := by decide
  refine ⟨?_, ?_, ?_, ?_, ?_⟩
  · simp only [getCoverageSummary, hsel]
  · norm_num [CoverageInterval.duration]
  · simp only [getCoverageSummary, hsel]
    norm_num [min_def, max_def, asiaOpt, alphaSat, etaSat, gammaSat]
  · simp only [getCoverageSummary, hsel]
    norm_num [min_def, max_def, asiaOpt, alphaSat, etaSat, gammaSat]
  · simp only [getCoverageSummary, hsel]
    rfl

/-- Claim C3, counterexample to the claimed coveredDuration = 14 and
coveragePercentage of about 58.33: the code reports 18 and 75. -/
theorem asia_scenario_counterexample :
    (getCoverageSummary asiaOpt "Asia").coveredDuration = 18
    ∧ (18 : ℚ) ≠ 14
    ∧ (getCoverageSummary asiaOpt "Asia").coveragePercentage = 75 := by
  have hsel : findMinimumSatellites asiaOpt "Asia"
      = ([alphaSat, etaSat, gammaSat], [⟨14, 24⟩]) := by decide
  refine ⟨?_, by norm_num, ?_⟩
  · simp only [getCoverageSummary, hsel]
    norm_num [min_def, max_def, asiaOpt, alphaSat, etaSat, gammaSat]
  · simp only [getCoverageSummary, hsel]
    norm_num [min_def, max_def, asiaOpt, alphaSat, etaSat, gammaSat]

/-- Claim C4 (amended): whenever the candidate batch at the current
frontier is empty while unconsidered satellites remain, one loop iteration
records the gap from currentEnd to min(next satellite start, targetEnd) —
clipped at targetEnd, not running to the next start when that start exceeds
targetEnd — then force-selects that next satellite and continues with the
frontier at its interval end. -/
theorem greedy_gap_branch (targetEnd : ℚ) (fuel : ℕ) (currentEnd : ℚ)
    (next : Satellite) (rest : List Satellite)
    (h1 : currentEnd < targetEnd) (h2 : currentEnd < next.interval.start) :
    greedyGo targetEnd (fuel + 1) currentEnd (next :: rest)
      = (next :: (greedyGo targetEnd fuel next.interval.stop rest).1,
         ⟨currentEnd, min next.interval.start targetEnd⟩
           :: (greedyGo targetEnd fuel next.interval.stop rest).2.1,
         (greedyGo targetEnd fuel next.interval.stop rest).2.2) := by
  have h2' : ¬ next.interval.start ≤ currentEnd := not_le.mpr h2
  have hgap : currentEnd < min next.interval.start targetEnd := lt_min h2 h1
  simp [greedyGo, h1, h2', hgap]

/-- Claim C4, witness: one gap-branch iteration at frontier 2 in window
end 10 facing `lateSat` = [15, 20). -/
theorem greedy_gap_branch_witness :
    (2 : ℚ) < 10 ∧ (2 : ℚ) < lateSat.interval.start
    ∧ greedyGo 10 (0 + 1) 2 [lateSat]
      = (lateSat :: (greedyGo 10 0 lateSat.interval.stop []).1,
         ⟨2, min lateSat.interval.start 10⟩
           :: (greedyGo 10 0 lateSat.interval.stop []).2.1,
         (greedyGo 10 0 lateSat.interval.stop []).2.2) :=
  ⟨by norm_num, by decide,
   greedy_gap_branch 10 0 2 lateSat [] (by norm_num) (by decide)⟩

/-- Claim C4, counterexample to the unclipped gap end: on `clipOpt` the
next unconsidered satellite after the frontier reaches 2 is lateSat with
start 15 > targetEnd 10, and the recorded gap is [2, 10), not [2, 15). -/
theorem gap_clip_counterexample :
    (findMinimumSatellites clipOpt "All").2 = [⟨2, 10⟩]
    ∧ (⟨2, 15⟩ : CoverageInterval) ∉ (findMinimumSatellites clipOpt "All").2 := by
  decide

/-- Claim C6: when region filtering leaves no satellites, the greedy
returns an empty selection and — when the window is non-degenerate —
exactly the single gap [targetStart, targetEnd) with a zero coverage
percentage, and no gaps at all when targetEnd is at or before
targetStart. -/
theorem empty_filter_behavior (opt : SatelliteCoverageOptimizer) (region : String)
    (h : filterByRegion opt region = []) :
    (opt.targetStart < opt.targetEnd →
      findMinimumSatellites opt region = ([], [⟨opt.targetStart, opt.targetEnd⟩])
      ∧ (getCoverageSummary opt region).coveragePercentage = 0)
    ∧ (opt.targetEnd ≤ opt.targetStart →
      findMinimumSatellites opt region = ([], [])) := by
  have hsf : sortedFiltered opt region = [] := by
    rw [sortedFiltered, h]; rfl
  have hgo : ∀ fuel, greedyGo opt.targetEnd (fuel + 1) opt.targetStart []
      = ([], [], opt.targetStart) := by
    intro fuel
    rw [greedyGo]
    split <;> rfl
  constructor
  · intro hlt
    have hfs : findMinimumSatellites opt region
        = ([], [⟨opt.targetStart, opt.targetEnd⟩]) := by
      simp only [findMinimumSatellites, hsf, List.length_nil, hgo, if_pos hlt,
        List.nil_append]
    refine ⟨hfs, ?_⟩
    simp only [getCoverageSummary, hfs, List.foldl_nil]
    simp
  · intro hge
    simp only [findMinimumSatellites, hsf, List.length_nil, hgo,
      if_neg (not_lt.mpr hge)]

/-- Claim C6, witness: the freshly constructed optimizer has an empty
registry and window [0, 24). -/
theorem empty_filter_behavior_witness :
    filterByRegion defaultOptimizer "All" = []
    ∧ defaultOptimizer.targetStart < defaultOptimizer.targetEnd
    ∧ (findMinimumSatellites defaultOptimizer "All"
        = ([], [⟨defaultOptimizer.targetStart, defaultOptimizer.targetEnd⟩])
      ∧ (getCoverageSummary defaultOptimizer "All").coveragePercentage = 0) :=
  ⟨rfl, by decide,
   (empty_filter_behavior defaultOptimizer "All" rfl).1 (by decide)⟩

lemma greedyGo_gaps_strict (targetEnd : ℚ) :
    ∀ (fuel : ℕ) (currentEnd : ℚ) (l : List Satellite),
      ∀ g ∈ (greedyGo targetEnd fuel currentEnd l).2.1, g.start < g.stop := by
  intro fuel
  induction fuel with
  | zero =>
      intro cE l g hg
      simp [greedyGo] at hg
  | succ fuel ih =>
      intro cE l g hg
      by_cases h1 : cE < targetEnd
      · cases l with
        | nil => simp [greedyGo, h1] at hg
        | cons next rest =>
            by_cases h2 : next.interval.start ≤ cE
            · simp only [greedyGo, if_pos h1, if_pos h2] at hg
              exact ih _ _ g hg
            · simp only [greedyGo, if_pos h1, if_neg h2, List.mem_append] at hg
              rcases hg with hg0 | hgr
              · by_cases h3 : cE < min next.interval.start targetEnd
                · rw [if_pos h3] at hg0
                  simp only [List.mem_singleton] at hg0
                  rw [hg0]
                  exact h3
                · rw [if_neg h3] at hg0
                  simp at hg0
              · exact ih _ _ g hgr
      · simp [greedyGo, h1] at hg

lemma findMinimumSatellites_gaps_strict (opt : SatelliteCoverageOptimizer)
    (region : String) :
    ∀ g ∈ (findMinimumSatellites opt region).2, g.start < g.stop := by
  intro g hg
  simp only [findMinimumSatellites] at hg
  split at hg
  case isTrue h =>
    rcases List.mem_append.mp hg with h1 | h1
    · exact greedyGo_gaps_strict _ _ _ _ g h1
    · simp only [List.mem_singleton] at h1
      rw [h1]
      exact h
  case isFalse h => exact greedyGo_gaps_strict _ _ _ _ g hg

lemma gapFinderGo_gaps_strict :
    ∀ (l : List Satellite) (currentEnd : ℚ),
      ∀ g ∈ (gapFinderGo currentEnd l).1, g.start < g.stop := by
  intro l
  induction l with
  | nil => intro cE g hg; simp [gapFinderGo] at hg
  | cons s rest ih =>
      intro cE g hg
      simp only [gapFinderGo, List.mem_append] at hg
      rcases hg with hg0 | hgr
      · by_cases h3 : s.interval.start > cE
        · rw [if_pos h3] at hg0
          simp only [List.mem_singleton] at hg0
          rw [hg0]
          exact h3
        · rw [if_neg h3] at hg0
          simp at hg0
      · exact ih _ g hgr

lemma gapFinder_gaps_strict (targetStart targetEnd : ℚ) (sel : List Satellite) :
    ∀ g ∈ gapFinder targetStart targetEnd sel, g.start < g.stop := by
  intro g hg
  simp only [gapFinder] at hg
  split at hg
  case isTrue h =>
    rcases List.mem_append.mp hg with h1 | h1
    · exact gapFinderGo_gaps_strict _ _ g h1
    · simp only [List.mem_singleton] at h1
      rw [h1]
      exact h
  case isFalse h => exact gapFinderGo_gaps_strict _ _ g hg

/-- Claim C7: every gap interval returned by findMinimumSatellites or by
findMinimumCostCoverage has start strictly less than end; zero-length gaps
are never emitted. -/
theorem gaps_strict (opt : SatelliteCoverageOptimizer) (region : String) :
    (∀ g ∈ (findMinimumSatellites opt region).2, g.start < g.stop)
    ∧ (∀ g ∈ (findMinimumCostCoverage opt region).2.2, g.start < g.stop) := by
  refine ⟨findMinimumSatellites_gaps_strict opt region, ?_⟩
  intro g hg
  simp only [findMinimumCostCoverage] at hg
  exact gapFinder_gaps_strict _ _ _ g hg

/-- Claim C7, witness: the single gap [0, 24) reported on the empty
registry is strictly non-degenerate. -/
theorem gaps_strict_witness :
    (⟨0, 24⟩ : CoverageInterval) ∈ (findMinimumSatellites defaultOptimizer "All").2
    ∧ (⟨(0 : ℚ), 24⟩ : CoverageInterval).start
        < (⟨(0 : ℚ), 24⟩ : CoverageInterval).stop :=
  ⟨by decide, (gaps_strict defaultOptimizer "All").1 ⟨0, 24⟩ (by decide)⟩

lemma greedyGo_covers (targetEnd : ℚ) :
    ∀ (fuel : ℕ) (currentEnd : ℚ) (l : List Satellite) (x : ℚ),
      currentEnd ≤ x → x < targetEnd →
      x < (greedyGo targetEnd fuel currentEnd l).2.2 →
      (∃ s ∈ (greedyGo targetEnd fuel currentEnd l).1,
          s.interval.start ≤ x ∧ x < s.interval.stop)
      ∨ (∃ g ∈ (greedyGo targetEnd fuel currentEnd l).2.1,
          g.start ≤ x ∧ x < g.stop) := by
  intro fuel
  induction fuel with
  | zero =>
      intro cE l x hcx hxT hfin
      simp only [greedyGo] at hfin
      exact absurd hfin (not_lt.mpr hcx)
  | succ fuel ih =>
      intro cE l x hcx hxT hfin
      by_cases h1 : cE < targetEnd
      · cases l with
        | nil =>
            simp only [greedyGo, if_pos h1] at hfin
            exact absurd hfin (not_lt.mpr hcx)
        | cons next rest =>
            by_cases h2 : next.interval.start ≤ cE
            · simp only [greedyGo, if_pos h1, if_pos h2] at hfin ⊢
              by_cases hx : x < (maxEndCandidate next
                  (rest.takeWhile (fun s => decide (s.interval.start ≤ cE)))).interval.stop
              · left
                exact ⟨_, List.mem_cons_self _ _,
                  le_trans (maxEndCandidate_start_le cE next rest h2) hcx, hx⟩
              · push_neg at hx
                rcases ih _ _ x hx hxT hfin with ⟨s, hs, hsp⟩ | ⟨g, hgm, hgp⟩
                · exact Or.inl ⟨s, List.mem_cons_of_mem _ hs, hsp⟩
                · exact Or.inr ⟨g, hgm, hgp⟩
            · have h2' : cE < next.interval.start := not_le.mp h2
              have hgap : cE < min next.interval.start targetEnd := lt_min h2' h1
              simp only [greedyGo, if_pos h1, if_neg h2, if_pos hgap,
                List.singleton_append] at hfin ⊢
              by_cases hx1 : x < min next.interval.start targetEnd
              · exact Or.inr ⟨⟨cE, min next.interval.start targetEnd⟩,
                  List.mem_cons_self _ _, hcx, hx1⟩
              · push_neg at hx1
                have hnx : next.interval.start ≤ x := by
                  rcases le_total next.interval.start targetEnd with hle | hle
                  · rwa [min_eq_left hle] at hx1
                  · rw [min_eq_right hle] at hx1
                    exact absurd hxT (not_lt.mpr hx1)
                by_cases hx2 : x < next.interval.stop
                · exact Or.inl ⟨next, List.mem_cons_self _ _, hnx, hx2⟩
                · push_neg at hx2
                  rcases ih _ _ x hx2 hxT hfin with ⟨s, hs, hsp⟩ | ⟨g, hgm, hgp⟩
                  · exact Or.inl ⟨s, List.mem_cons_of_mem _ hs, hsp⟩
                  · exact Or.inr ⟨g, List.mem_cons_of_mem _ hgm, hgp⟩
      · simp only [greedyGo, if_neg h1] at hfin
        exact absurd hfin (not_lt.mpr hcx)

lemma gapFinderGo_covers :
    ∀ (l : List Satellite) (currentEnd x : ℚ),
      currentEnd ≤ x → x < (gapFinderGo currentEnd l).2 →
      (∃ s ∈ l, s.interval.start ≤ x ∧ x < s.interval.stop)
      ∨ (∃ g ∈ (gapFinderGo currentEnd l).1, g.start ≤ x ∧ x < g.stop) := by
  intro l
  induction l with
  | nil =>
      intro cE x hcx hfin
      simp only [gapFinderGo] at hfin
      exact absurd hfin (not_lt.mpr hcx)
  | cons s rest ih =>
      intro cE x hcx hfin
      simp only [gapFinderGo] at hfin ⊢
      by_cases hss : s.interval.start > cE
      · rw [if_pos hss]
        by_cases hx1 : x < s.interval.start
        · exact Or.inr ⟨⟨cE, s.interval.start⟩,
            List.mem_append_left _ (List.mem_singleton_self _), hcx, hx1⟩
        · push_neg at hx1
          by_cases hx2 : x < s.interval.stop
          · exact Or.inl ⟨s, List.mem_cons_self _ _, hx1, hx2⟩
          · push_neg at hx2
            have hm : max cE s.interval.stop ≤ x := max_le hcx hx2
            rcases ih _ x hm hfin with ⟨t, ht, htp⟩ | ⟨g, hgm, hgp⟩
            · exact Or.inl ⟨t, List.mem_cons_of_mem _ ht, htp⟩
            · exact Or.inr ⟨g, List.mem_append_right _ hgm, hgp⟩
      · rw [if_neg hss]
        push_neg at hss
        by_cases hx2 : x < s.interval.stop
        · exact Or.inl ⟨s, List.mem_cons_self _ _, le_trans hss hcx, hx2⟩
        · push_neg at hx2
          have hm : max cE s.interval.stop ≤ x := max_le hcx hx2
          rcases ih _ x hm hfin with ⟨t, ht, htp⟩ | ⟨g, hgm, hgp⟩
          · exact Or.inl ⟨t, List.mem_cons_of_mem _ ht, htp⟩
          · exact Or.inr ⟨g, by simpa using hgm, hgp⟩

lemma gapFinder_covers (targetStart targetEnd : ℚ) (sel : List Satellite) (x : ℚ)
    (h0 : targetStart ≤ x) (h1 : x < targetEnd) :
    (∃ s ∈ sel, s.interval.start ≤ x ∧ x < s.interval.stop)
    ∨ (∃ g ∈ gapFinder targetStart targetEnd sel, g.start ≤ x ∧ x < g.stop) := by
  by_cases hx : x < (gapFinderGo targetStart sel).2
  · rcases gapFinderGo_covers sel targetStart x h0 hx with h | ⟨g, hg, hgp⟩
    · exact Or.inl h
    · refine Or.inr ⟨g, ?_, hgp⟩
      simp only [gapFinder]
      split
      · exact List.mem_append_left _ hg
      · exact hg
  · push_neg at hx
    have hfin : (gapFinderGo targetStart sel).2 < targetEnd := lt_of_le_of_lt hx h1
    refine Or.inr ⟨⟨(gapFinderGo targetStart sel).2, targetEnd⟩, ?_, hx, h1⟩
    simp only [gapFinder]
    rw [if_pos hfin]
    exact List.mem_append_right _ (List.mem_singleton_self _)

lemma dpStepJ_eq_or (filtered : List Satellite) (dpi : ℚ) (st : DPState) (j : ℕ) :
    (dpStepJ filtered dpi st j = st ∧ st.dp (j + 1) ≠ none)
    ∨ dpStepJ filtered dpi st j
      = ⟨upd st.dp (j + 1) (some (dpi + (filtered.getD j default).cost)),
         upd st.parent (j + 1) (some j)⟩ := by
  simp only [dpStepJ]
  split
  case isTrue hcond =>
    right
    rfl
  case isFalse hcond =>
    left
    refine ⟨rfl, ?_⟩
    cases hdp : st.dp (j + 1) with
    | none =>
        rw [hdp] at hcond
        exact absurd rfl hcond
    | some c => simp [hdp]

lemma dpStepJ_inv (filtered : List Satellite) (targetStart dpi : ℚ) (st : DPState)
    (j : ℕ) (hQ : startReachable filtered targetStart j)
    (hentry : j = 0 ∨ st.parent j ≠ none)
    (h : dpInv filtered targetStart st) :
    dpInv filtered targetStart (dpStepJ filtered dpi st j)
    ∧ (dpStepJ filtered dpi st j).parent (j + 1) ≠ none
    ∧ (∀ k, st.parent k ≠ none → (dpStepJ filtered dpi st j).parent k ≠ none) := by
  obtain ⟨hPV, hR, hD⟩ := h
  rcases dpStepJ_eq_or filtered dpi st j with ⟨heq, hdp⟩ | heq
  · rw [heq]
    refine ⟨⟨hPV, hR, hD⟩, ?_, fun k hk => hk⟩
    rcases hR (j + 1) hdp with h0 | hpar
    · exact absurd h0 (by omega)
    · exact hpar
  · rw [heq]
    refine ⟨⟨?_, ?_, ?_⟩, ?_, ?_⟩
    · intro k i hk
      simp only [upd] at hk
      split at hk
      case isTrue hkj =>
        obtain rfl : j = i := Option.some.inj hk
        exact ⟨hkj, hQ⟩
      case isFalse => exact hPV k i hk
    · intro k hk
      simp only [upd] at hk ⊢
      by_cases hkj : k = j + 1
      · right
        rw [if_pos hkj]
        simp
      · rw [if_neg hkj] at hk
        rcases hR k hk with h0 | hpar
        · exact Or.inl h0
        · right
          split
          · simp
          · exact hpar
    · intro k hk
      simp only [upd] at hk ⊢
      by_cases hkj : k + 1 = j + 1
      · have hkj' : k = j := by omega
        subst hkj'
        rcases hentry with h0 | hpar
        · exact Or.inl h0
        · right
          rw [if_neg (by omega : ¬ k = k + 1)]
          exact hpar
      · rw [if_neg hkj] at hk
        rcases hD k hk with h0 | hpar
        · exact Or.inl h0
        · right
          split
          · simp
          · exact hpar
    · simp [upd]
    · intro k hk
      simp only [upd]
      split
      · simp
      · exact hk

lemma takeWhile_range' (p : ℕ → Bool) :
    ∀ (b a : ℕ), ∃ len, len ≤ b
      ∧ (List.range' a b).takeWhile p = List.range' a len := by
  intro b
  induction b with
  | zero => intro a; exact ⟨0, le_refl 0, rfl⟩
  | succ b ih =>
      intro a
      rw [List.range'_succ, List.takeWhile_cons]
      by_cases hp : p a = true
      · obtain ⟨len, hlen, hh⟩ := ih (a + 1)
        refine ⟨len + 1, by omega, ?_⟩
        rw [if_pos hp, hh, List.range'_succ]
      · refine ⟨0, by omega, ?_⟩
        rw [if_neg hp]
        rfl

lemma dpPass_inv (filtered : List Satellite) (targetStart dpi : ℚ) :
    ∀ (len a : ℕ) (st : DPState),
      dpInv filtered targetStart st →
      (a = 0 ∨ st.parent a ≠ none) →
      (∀ j ∈ List.range' a len, startReachable filtered targetStart j) →
      dpInv filtered targetStart
        ((List.range' a len).foldl (dpStepJ filtered dpi) st) := by
  intro len
  induction len with
  | zero => intro a st h _ _; exact h
  | succ len ih =>
      intro a st h hentry hQ
      rw [List.range'_succ, List.foldl_cons]
      obtain ⟨h1, h2, _⟩ := dpStepJ_inv filtered targetStart dpi st a
        (hQ a (by rw [List.range'_succ]; exact List.mem_cons_self _ _)) hentry h
      exact ih (a + 1) _ h1 (Or.inr h2)
        (fun j hj => hQ j (by rw [List.range'_succ]; exact List.mem_cons_of_mem _ hj))

lemma dpStepI_inv (filtered : List Satellite) (targetStart : ℚ) (st : DPState)
    (i : ℕ) (h : dpInv filtered targetStart st) :
    dpInv filtered targetStart (dpStepI filtered targetStart st i) := by
  simp only [dpStepI]
  split
  · exact h
  case h_2 dpi hdp =>
    have hentry : i = 0 ∨ st.parent i ≠ none := h.2.1 i (by rw [hdp]; simp)
    obtain ⟨len, hlen, hpfx⟩ := takeWhile_range'
      (fun j => decide ((filtered.getD j default).interval.start ≤
        (if i = 0 then targetStart
         else
           match st.parent i with
           | some p => (filtered.getD p default).interval.stop
           | none => targetStart))) (filtered.length - i) i
    rw [hpfx]
    refine dpPass_inv filtered targetStart dpi len i st h hentry ?_
    intro j hj
    have hij : i ≤ j := (List.mem_range'_1.mp hj).1
    rw [← hpfx] at hj
    have hstart := List.mem_takeWhile_imp hj
    simp only [decide_eq_true_eq] at hstart
    by_cases hi0 : i = 0
    · rw [if_pos hi0] at hstart
      exact Or.inl hstart
    · rw [if_neg hi0] at hstart
      cases hpi : st.parent i with
      | none =>
          rcases hentry with h0 | hne
          · exact absurd h0 hi0
          · exact absurd hpi hne
      | some p =>
          rw [hpi] at hstart
          have hip : i = p + 1 := (h.1 i p hpi).1
          exact Or.inr ⟨p, by omega, hstart⟩

lemma dpRun_inv (filtered : List Satellite) (targetStart : ℚ) :
    dpInv filtered targetStart (dpRun filtered targetStart) := by
  unfold dpRun
  refine foldl_preserve (fun st i hst => dpStepI_inv filtered targetStart st i hst)
    _ _ ⟨?_, ?_, ?_⟩
  · intro k j hk; simp [initState] at hk
  · intro k hk
    by_cases h0 : k = 0
    · exact Or.inl h0
    · simp [initState, h0] at hk
  · intro k hk; simp [initState] at hk

lemma parent_defined_all (parent : ℕ → Option ℕ)
    (hD : ∀ k, parent (k + 1) ≠ none → k = 0 ∨ parent k ≠ none)
    (n : ℕ) (hn : parent n ≠ none) :
    ∀ k, 1 ≤ k → k ≤ n → parent k ≠ none := by
  have key : ∀ d k, k + d = n → 1 ≤ k → parent k ≠ none := by
    intro d
    induction d with
    | zero =>
        intro k hkd _
        have hkn : k = n := by omega
        rw [hkn]
        exact hn
    | succ d ih =>
        intro k hkd hk1
        have hnext : parent (k + 1) ≠ none := ih (k + 1) (by omega) (by omega)
        rcases hD k hnext with h0 | hk
        · exact absurd h0 (by omega)
        · exact hk
  intro k hk1 hkn
  exact key (n - k) k (by omega) hk1

lemma walk_at_none (filtered : List Satellite) (parent : ℕ → Option ℕ)
    (fuel idx : ℕ) (h : parent idx = none) :
    walk filtered parent (fuel + 1) idx = ([], 0) := by
  simp only [walk]
  split
  · rfl
  · simp [h]

lemma walk_all (filtered : List Satellite) (parent : ℕ → Option ℕ)
    (hpar : ∀ k j, parent k = some j → k = j + 1) :
    ∀ (fuel idx : ℕ), idx ≤ fuel → idx ≤ filtered.length →
      (∀ k, 1 ≤ k → k ≤ idx → parent k ≠ none) →
      (walk filtered parent fuel idx).1 = (filtered.take idx).reverse := by
  intro fuel
  induction fuel with
  | zero =>
      intro idx h1 _ _
      have h0 : idx = 0 := Nat.le_zero.mp h1
      subst h0
      simp [walk]
  | succ fuel ih =>
      intro idx h1 h2 hdef
      by_cases h0 : idx = 0
      · subst h0
        simp [walk]
      · cases hp : parent idx with
        | none => exact absurd hp (hdef idx (by omega) (le_refl idx))
        | some p =>
            have hpe : idx = p + 1 := hpar _ _ hp
            simp only [walk, if_neg h0, hp]
            rw [ih p (by omega) (by omega) (fun k hk1 hk2 => hdef k hk1 (by omega))]
            have hplt : p < filtered.length := by omega
            have htake : filtered.take idx
                = filtered.take p ++ [filtered.getD p default] := by
              rw [show idx = p + 1 from hpe, List.take_succ]
              congr 1
              rw [List.getElem?_eq_getElem hplt, List.getD_eq_getElem?_getD,
                List.getElem?_eq_getElem hplt]
              rfl
            rw [htake, List.reverse_append]
            simp

lemma noGapChain_of_reachable (l : List Satellite) (targetStart : ℚ)
    (hQ : ∀ k, k < l.length → startReachable l targetStart k) :
    ∀ (d j : ℕ), l.length - j ≤ d → ∀ currentEnd : ℚ, targetStart ≤ currentEnd →
      (∀ p, p < j → (l.getD p default).interval.stop ≤ currentEnd) →
      noGapChain currentEnd (l.drop j) := by
  intro d
  induction d with
  | zero =>
      intro j hd cE hT0 hp
      rw [List.drop_eq_nil_of_le (by omega)]
      trivial
  | succ d ih =>
      intro j hd cE hT0 hp
      cases hdrop : l.drop j with
      | nil => trivial
      | cons s rest =>
          have hj : j < l.length := by
            by_contra hh
            rw [List.drop_eq_nil_of_le (by omega)] at hdrop
            cases hdrop
          have hs : l.getD j default = s := by
            have h0 : (l.drop j)[0]? = some s := by rw [hdrop]; simp
            rw [List.getElem?_drop] at h0
            rw [List.getD_eq_getElem?_getD]
            simp only [Nat.add_zero] at h0
            rw [h0]
            rfl
          refine ⟨?_, ?_⟩
          · rcases hQ j hj with h | ⟨p, hpj, hle⟩
            · rw [← hs]
              exact le_trans h hT0
            · rw [← hs]
              exact le_trans hle (hp p hpj)
          · have hrest : rest = l.drop (j + 1) := by
              have hdd : l.drop (j + 1) = (l.drop j).drop 1 := by
                rw [List.drop_drop]
              rw [hdd, hdrop]
              rfl
            rw [hrest]
            refine ih (j + 1) (by omega) _ (le_trans hT0 (le_max_left _ _)) ?_
            intro p hpj1
            by_cases hpj : p < j
            · exact le_trans (hp p hpj) (le_max_left _ _)
            · have hpe : p = j := by omega
              subst hpe
              rw [hs]
              exact le_max_right _ _

lemma noGapChain_gapFinderGo :
    ∀ (l : List Satellite) (currentEnd : ℚ), noGapChain currentEnd l →
      (gapFinderGo currentEnd l).1 = []
      ∧ currentEnd ≤ (gapFinderGo currentEnd l).2
      ∧ ∀ s ∈ l, s.interval.stop ≤ (gapFinderGo currentEnd l).2 := by
  intro l
  induction l with
  | nil =>
      intro cE _
      exact ⟨rfl, le_refl _, by simp⟩
  | cons s rest ih =>
      intro cE h
      simp only [noGapChain] at h
      obtain ⟨h1, h2⟩ := h
      obtain ⟨ih1, ih2, ih3⟩ := ih (max cE s.interval.stop) h2
      have hng : ¬ s.interval.start > cE := not_lt.mpr h1
      simp only [gapFinderGo, if_neg hng, List.nil_append]
      refine ⟨ih1, le_trans (le_max_left _ _) ih2, ?_⟩
      intro t ht
      rcases List.mem_cons.mp ht with rfl | ht
      · exact le_trans (le_max_right _ _) ih2
      · exact ih3 t ht

lemma dp_structure (opt : SatelliteCoverageOptimizer) (region : String) :
    ((findMinimumCostCoverage opt region).1 = []
      ∧ (findMinimumCostCoverage opt region).2.2
          = (if opt.targetStart < opt.targetEnd
              then [⟨opt.targetStart, opt.targetEnd⟩] else []))
    ∨ ((findMinimumCostCoverage opt region).1 = sortedFiltered opt region
      ∧ (gapFinderGo opt.targetStart (sortedFiltered opt region)).1 = []
      ∧ opt.targetStart ≤ (gapFinderGo opt.targetStart (sortedFiltered opt region)).2
      ∧ ∀ s ∈ sortedFiltered opt region,
          s.interval.stop ≤ (gapFinderGo opt.targetStart (sortedFiltered opt region)).2) := by
  obtain ⟨hPV, hR, hD⟩ := dpRun_inv (sortedFiltered opt region) opt.targetStart
  cases hp : (dpRun (sortedFiltered opt region) opt.targetStart).parent
      (sortedFiltered opt region).length with
  | none =>
      left
      have hsel : (findMinimumCostCoverage opt region).1 = [] := by
        simp only [findMinimumCostCoverage]
        rw [walk_at_none _ _ _ _ hp]
        rfl
      have hgf : (findMinimumCostCoverage opt region).2.2
          = gapFinder opt.targetStart opt.targetEnd
            ((findMinimumCostCoverage opt region).1) := rfl
      refine ⟨hsel, ?_⟩
      rw [hgf, hsel]
      simp only [gapFinder, gapFinderGo]
      split
      · simp
      · rfl
  | some j =>
      right
      have hvals : ∀ k j',
          (dpRun (sortedFiltered opt region) opt.targetStart).parent k = some j'
            → k = j' + 1 :=
        fun k j' hk => (hPV k j' hk).1
      have hdef := parent_defined_all
        (dpRun (sortedFiltered opt region) opt.targetStart).parent hD
        (sortedFiltered opt region).length (by rw [hp]; simp)
      have hsel : (findMinimumCostCoverage opt region).1
          = sortedFiltered opt region := by
        simp only [findMinimumCostCoverage]
        rw [walk_all _ _ hvals _ _ (by omega) (le_refl _) hdef]
        rw [List.reverse_reverse, List.take_length]
      have hQall : ∀ k, k < (sortedFiltered opt region).length →
          startReachable (sortedFiltered opt region) opt.targetStart k := by
        intro k hk
        have h1 : (dpRun (sortedFiltered opt region) opt.targetStart).parent (k + 1)
            ≠ none := hdef (k + 1) (by omega) (by omega)
        cases hpk : (dpRun (sortedFiltered opt region) opt.targetStart).parent (k + 1) with
        | none => exact absurd hpk h1
        | some j' =>
            obtain ⟨hkj, hQ⟩ := hPV (k + 1) j' hpk
            have hje : j' = k := by omega
            rw [hje] at hQ
            exact hQ
      have hchain : noGapChain opt.targetStart (sortedFiltered opt region) := by
        have hh := noGapChain_of_reachable (sortedFiltered opt region)
          opt.targetStart hQall (sortedFiltered opt region).length 0 (by omega)
          opt.targetStart (le_refl _) (fun p hp0 => absurd hp0 (Nat.not_lt_zero p))
        rwa [List.drop_zero] at hh
      obtain ⟨hg1, hg2, hg3⟩ := noGapChain_gapFinderGo _ _ hchain
      exact ⟨hsel, hg1, hg2, hg3⟩

/-- Claim C1 (amended): for findMinimumSatellites, every point of the
target window [targetStart, targetEnd) lies in a selected satellite
interval clipped to the window or in a reported gap (for the greedy the
exact-tiling and disjointness parts of the claim fail; see the
counterexample).  For findMinimumCostCoverage the claim holds in full: the
union of the selected satellite intervals clipped to the window together
with the reported gaps equals the window exactly, and no reported gap
overlaps any selected satellite interval. -/
theorem coverage_tiles (opt : SatelliteCoverageOptimizer) (region : String) :
    (∀ x : ℚ, opt.targetStart ≤ x → x < opt.targetEnd →
      coveredBy opt.targetStart opt.targetEnd x
        (findMinimumSatellites opt region).1 (findMinimumSatellites opt region).2)
    ∧ (∀ x : ℚ,
        coveredBy opt.targetStart opt.targetEnd x
          (findMinimumCostCoverage opt region).1
          (findMinimumCostCoverage opt region).2.2
        ↔ opt.targetStart ≤ x ∧ x < opt.targetEnd)
    ∧ (∀ g ∈ (findMinimumCostCoverage opt region).2.2,
        ∀ s ∈ (findMinimumCostCoverage opt region).1,
        ¬ g.overlaps s.interval) := by
  have hgf : (findMinimumCostCoverage opt region).2.2
      = gapFinder opt.targetStart opt.targetEnd
        ((findMinimumCostCoverage opt region).1) := rfl
  refine ⟨?_, fun x => ⟨?_, fun hx => ?_⟩, ?_⟩
  · intro x h0 h1
    unfold coveredBy
    simp only [findMinimumSatellites]
    by_cases hx : x < (greedyGo opt.targetEnd ((sortedFiltered opt region).length + 1)
        opt.targetStart (sortedFiltered opt region)).2.2
    · rcases greedyGo_covers opt.targetEnd _ _ _ x h0 h1 hx with
        ⟨s, hs, hs1, hs2⟩ | ⟨g, hg, hg1, hg2⟩
      · exact Or.inl ⟨s, hs, max_le h0 hs1, lt_min h1 hs2⟩
      · refine Or.inr ⟨g, ?_, hg1, hg2⟩
        split
        · exact List.mem_append_left _ hg
        · exact hg
    · push_neg at hx
      have hfin : (greedyGo opt.targetEnd ((sortedFiltered opt region).length + 1)
          opt.targetStart (sortedFiltered opt region)).2.2 < opt.targetEnd :=
        lt_of_le_of_lt hx h1
      refine Or.inr ⟨⟨(greedyGo opt.targetEnd ((sortedFiltered opt region).length + 1)
          opt.targetStart (sortedFiltered opt region)).2.2, opt.targetEnd⟩,
        ?_, hx, h1⟩
      rw [if_pos hfin]
      exact List.mem_append_right _ (List.mem_singleton_self _)
  · -- union of clipped selection and gaps is inside the window
    intro hcov
    rcases hcov with ⟨s, _, hs1, hs2⟩ | ⟨g, hg, hg1, hg2⟩
    · exact ⟨le_trans (le_max_left _ _) hs1, lt_of_lt_of_le hs2 (min_le_left _ _)⟩
    · -- every DP gap lies inside the window
      rcases dp_structure opt region with ⟨_, hgaps⟩ | ⟨hsel, hgnil, hfin, _⟩
      · rw [hgaps] at hg
        split at hg
        case isTrue hlt =>
          rw [List.mem_singleton] at hg
          subst hg
          exact ⟨hg1, hg2⟩
        case isFalse => simp at hg
      · rw [hgf, hsel] at hg
        simp only [gapFinder, hgnil, List.nil_append] at hg
        split at hg
        case isTrue hlt =>
          rw [List.mem_singleton] at hg
          subst hg
          exact ⟨le_trans hfin hg1, hg2⟩
        case isFalse => simp at hg
  · -- the window is covered by the clipped selection and the gaps
    unfold coveredBy
    simp only [findMinimumCostCoverage]
    rcases gapFinder_covers opt.targetStart opt.targetEnd _ x hx.1 hx.2 with
      ⟨s, hs, hs1, hs2⟩ | ⟨g, hg, hgp⟩
    · exact Or.inl ⟨s, hs, max_le hx.1 hs1, lt_min hx.2 hs2⟩
    · exact Or.inr ⟨g, hg, hgp⟩
  · -- no DP gap overlaps a selected satellite interval
    intro g hg s hs
    rcases dp_structure opt region with ⟨hsel, _⟩ | ⟨hsel, hgnil, _, hstops⟩
    · rw [hsel] at hs
      simp at hs
    · rw [hgf, hsel] at hg
      simp only [gapFinder, hgnil, List.nil_append] at hg
      split at hg
      case isTrue hlt =>
        rw [List.mem_singleton] at hg
        subst hg
        rw [hsel] at hs
        simp only [CoverageInterval.overlaps, not_not]
        exact Or.inr (hstops s hs)
      case isFalse => simp at hg

/-- Claim C1, witness: for the Asia scenario, the point 3 is accounted for
by the greedy result, the point 3 is in the DP union exactly because it is
in the window while the point 30 is not, and the DP gap [14, 24) does not
overlap the selected Sat-Alpha interval. -/
theorem coverage_tiles_witness :
    (asiaOpt.targetStart ≤ (3 : ℚ) ∧ (3 : ℚ) < asiaOpt.targetEnd)
    ∧ coveredBy asiaOpt.targetStart asiaOpt.targetEnd 3
        (findMinimumSatellites asiaOpt "Asia").1 (findMinimumSatellites asiaOpt "Asia").2
    ∧ coveredBy asiaOpt.targetStart asiaOpt.targetEnd 3
        (findMinimumCostCoverage asiaOpt "Asia").1
        (findMinimumCostCoverage asiaOpt "Asia").2.2
    ∧ ¬ coveredBy asiaOpt.targetStart asiaOpt.targetEnd 30
        (findMinimumCostCoverage asiaOpt "Asia").1
        (findMinimumCostCoverage asiaOpt "Asia").2.2
    ∧ ((⟨14, 24⟩ : CoverageInterval) ∈ (findMinimumCostCoverage asiaOpt "Asia").2.2
      ∧ alphaSat ∈ (findMinimumCostCoverage asiaOpt "Asia").1
      ∧ ¬ (⟨14, 24⟩ : CoverageInterval).overlaps alphaSat.interval) :=
  ⟨⟨by decide, by decide⟩,
   (coverage_tiles asiaOpt "Asia").1 3 (by decide) (by decide),
   ((coverage_tiles asiaOpt "Asia").2.1 3).mpr ⟨by decide, by decide⟩,
   fun hc => absurd (((coverage_tiles asiaOpt "Asia").2.1 30).mp hc).2 (by decide),
   by decide, by decide,
   (coverage_tiles asiaOpt "Asia").2.2 ⟨14, 24⟩ (by decide) alphaSat (by decide)⟩

/-- Claim C1, counterexample to the exact-tiling statement: on
`backtrackOpt` (window [12, 40)) the greedy reports the gap [26, 32), which
overlaps the selected satellite B = [13, 30), and the gap [8, 13), which
starts before the window start 12, so the union of clipped selected
intervals and gaps strictly exceeds [12, 40). -/
theorem greedy_tiling_counterexample :
    ((⟨26, 32⟩ : CoverageInterval) ∈ (findMinimumSatellites backtrackOpt "All").2
      ∧ (⟨"B", ⟨13, 30⟩, 1, "Global"⟩ : Satellite)
          ∈ (findMinimumSatellites backtrackOpt "All").1
      ∧ (⟨26, 32⟩ : CoverageInterval).overlaps ⟨13, 30⟩)
    ∧ ((⟨8, 13⟩ : CoverageInterval) ∈ (findMinimumSatellites backtrackOpt "All").2
      ∧ (8 : ℚ) < backtrackOpt.targetStart) := by
  decide

lemma dpStepJ_parent (filtered : List Satellite) (dpi : ℚ) (st : DPState) (j : ℕ)
    (h : ∀ k i, st.parent k = some i → k = i + 1) :
    ∀ k i, (dpStepJ filtered dpi st j).parent k = some i → k = i + 1 := by
  intro k i hk
  simp only [dpStepJ] at hk
  split at hk
  · simp only [upd] at hk
    split at hk
    case isTrue heq =>
      obtain rfl : j = i := Option.some.inj hk
      exact heq
    case isFalse => exact h k i hk
  · exact h k i hk

lemma dpStepI_parent (filtered : List Satellite) (targetStart : ℚ) (st : DPState)
    (i : ℕ) (h : ∀ k j, st.parent k = some j → k = j + 1) :
    ∀ k j, (dpStepI filtered targetStart st i).parent k = some j → k = j + 1 := by
  simp only [dpStepI]
  split
  · exact h
  · exact foldl_preserve (fun st' j' h' => dpStepJ_parent filtered _ st' j' h') _ st h

lemma dpRun_parent (filtered : List Satellite) (targetStart : ℚ) :
    ∀ k j, (dpRun filtered targetStart).parent k = some j → k = j + 1 := by
  unfold dpRun
  refine foldl_preserve (fun st i hst => dpStepI_parent filtered targetStart st i hst)
    _ _ ?_
  intro k j hk
  simp [initState] at hk

lemma walk_cost (filtered : List Satellite) (parent : ℕ → Option ℕ) :
    ∀ (fuel idx : ℕ),
      (walk filtered parent fuel idx).2
        = ((walk filtered parent fuel idx).1.map Satellite.cost).sum := by
  intro fuel
  induction fuel with
  | zero => intro idx; simp [walk]
  | succ fuel ih =>
      intro idx
      simp only [walk]
      split
      · simp
      · split
        · simp
        · rename_i p hp
          simp only [List.map_cons, List.sum_cons]
          rw [ih p]
          exact add_comm _ _

lemma walk_suffix (filtered : List Satellite) (parent : ℕ → Option ℕ)
    (hpar : ∀ k j, parent k = some j → k = j + 1) :
    ∀ (fuel idx : ℕ), idx ≤ fuel → idx ≤ filtered.length →
      ∃ m, m ≤ idx ∧ (walk filtered parent fuel idx).1
        = ((filtered.drop m).take (idx - m)).reverse := by
  intro fuel
  induction fuel with
  | zero =>
      intro idx h1 _
      have h0 : idx = 0 := Nat.le_zero.mp h1
      subst h0
      exact ⟨0, le_refl 0, by simp [walk]⟩
  | succ fuel ih =>
      intro idx h1 h2
      by_cases h0 : idx = 0
      · subst h0
        exact ⟨0, le_refl 0, by simp [walk]⟩
      · cases hp : parent idx with
        | none =>
            refine ⟨idx, le_refl idx, ?_⟩
            rw [walk_at_none filtered parent fuel idx hp]
            simp
        | some p =>
            have hpe : idx = p + 1 := hpar _ _ hp
            obtain ⟨m, hm, hw⟩ := ih p (by omega) (by omega)
            refine ⟨m, by omega, ?_⟩
            simp only [walk, if_neg h0, hp]
            rw [hw]
            have hidx : idx - m = (p - m) + 1 := by omega
            rw [hidx, List.take_succ]
            have hget : (filtered.drop m)[p - m]? = some (filtered.getD p default) := by
              rw [List.getElem?_drop]
              have hmp : m + (p - m) = p := by omega
              rw [hmp]
              have hplt : p < filtered.length := by omega
              rw [List.getElem?_eq_getElem hplt]
              rw [List.getD_eq_getElem?_getD]
              rw [List.getElem?_eq_getElem hplt]
              rfl
            rw [hget]
            simp

/-- Claim C5: the reconstruction always walks from the fixed index n: the
returned total cost always equals the cost sum of the returned selection,
and when no parent chain reaches index n the selection is empty and the
total cost is 0 regardless of how much of the window an incomplete chain
could have covered. -/
theorem dp_reconstruction (opt : SatelliteCoverageOptimizer) (region : String) :
    (findMinimumCostCoverage opt region).2.1
      = ((findMinimumCostCoverage opt region).1.map Satellite.cost).sum
    ∧ ((dpRun (sortedFiltered opt region) opt.targetStart).parent
          (sortedFiltered opt region).length = none →
        (findMinimumCostCoverage opt region).1 = []
          ∧ (findMinimumCostCoverage opt region).2.1 = 0) := by
  constructor
  · simp only [findMinimumCostCoverage]
    rw [walk_cost, List.map_reverse, List.sum_reverse]
  · intro h
    simp only [findMinimumCostCoverage]
    rw [walk_at_none _ _ _ _ h]
    simp

/-- Claim C5, witness: on `noChainOpt` no chain reaches index n = 1, the
selection is empty and the returned cost is 0. -/
theorem dp_reconstruction_witness :
    (dpRun (sortedFiltered noChainOpt "All") noChainOpt.targetStart).parent
        (sortedFiltered noChainOpt "All").length = none
    ∧ ((findMinimumCostCoverage noChainOpt "All").1 = []
      ∧ (findMinimumCostCoverage noChainOpt "All").2.1 = 0) :=
  ⟨by decide, (dp_reconstruction noChainOpt "All").2 (by decide)⟩

/-- Claim C9: every defined parent entry satisfies parent[k] = k - 1 (the
only assignment is parent[j+1] = j), so the reconstructed selection is a
contiguous suffix — possibly empty — of the sorted filtered list, hence in
non-decreasing start order. -/
theorem dp_parent_suffix (opt : SatelliteCoverageOptimizer) (region : String) :
    (∀ k j, (dpRun (sortedFiltered opt region) opt.targetStart).parent k = some j
        → k = j + 1)
    ∧ (∃ m, (findMinimumCostCoverage opt region).1
        = (sortedFiltered opt region).drop m)
    ∧ List.Pairwise satLE (findMinimumCostCoverage opt region).1 := by
  have hinv := dpRun_parent (sortedFiltered opt region) opt.targetStart
  obtain ⟨m, hm, hw⟩ := walk_suffix (sortedFiltered opt region)
    (dpRun (sortedFiltered opt region) opt.targetStart).parent hinv
    ((sortedFiltered opt region).length + 1) (sortedFiltered opt region).length
    (by omega) (le_refl _)
  have hsel : (findMinimumCostCoverage opt region).1
      = (sortedFiltered opt region).drop m := by
    simp only [findMinimumCostCoverage]
    rw [hw, List.reverse_reverse]
    exact List.take_of_length_le (by rw [List.length_drop])
  refine ⟨hinv, ⟨m, hsel⟩, ?_⟩
  rw [hsel]
  have hsorted : List.Sorted satLE (sortedFiltered opt region) := by
    unfold sortedFiltered sortSatellites
    exact List.sorted_insertionSort satLE _
  exact List.Pairwise.sublist (List.drop_sublist m _) hsorted

/-- Claim C9, witness: on `chainOpt` the parent entry at index 1 is defined
and equals 0. -/
theorem dp_parent_suffix_witness :
    (dpRun (sortedFiltered chainOpt "All") chainOpt.targetStart).parent 1 = some 0
    ∧ (1 : ℕ) = 0 + 1 :=
  ⟨by decide, (dp_parent_suffix chainOpt "All").1 1 0 (by decide)⟩

end SatCov
